import Mathlib

/-!
Verification of the backfill/pagination engine in
`nautilus_trader/adapters/_template/historic.py`.

Times are modelled as integer seconds since the UTC epoch; a timezone is an
integer UTC offset in seconds; a calendar day is an integer day number.
Records (ticks, bars) carry the fields the core reads: a timestamp, and for
bars a volume; a `uid` field stands for the remaining payload so that two
records can differ while sharing a timestamp (Python compares records by
full value equality).  The provider is a function from a cursor instant to a
page of records, possibly failing; the `while True` loops of the source are
modelled with an explicit fuel parameter, `LoopOut.fuelOut` marking fuel
exhaustion (i.e. the loop would still be running).  Each loop also counts
the number of provider fetches it performed.
-/

deriving instance DecidableEq for Except

namespace Backfill

/-- A trade/quote tick as the pagination core sees it: a timestamp (`.time`
in the source) plus opaque payload (`uid`) that participates in value
equality. -/
structure Tick where
  time : Int
  uid : Nat
deriving DecidableEq, Repr

instance : Inhabited Tick := ⟨⟨0, 0⟩⟩

/-- A bar as the pagination core sees it: a timestamp (`.date` in the
source), a volume, and opaque payload participating in value equality. -/
structure Bar where
  time : Int
  volume : Int
  uid : Nat
deriving DecidableEq, Repr

instance : Inhabited Bar := ⟨⟨0, 0, 0⟩⟩

def secondsPerDay : Int := 86400

/-- UTC instant of local midnight of day `date` in zone `tz` (offset in
seconds): `pd.Timestamp(date, tz=tz_name).tz_convert("UTC")`. -/
def localDayStart (date tz : Int) : Int :=
  date * secondsPerDay - tz

/-- Local calendar day of a UTC instant `t` in zone `tz`:
`pd.Timestamp(t).astimezone(tz_name).date()`. -/
def dayOf (t tz : Int) : Int :=
  (t + tz) / secondsPerDay

/-- `_determine_next_timestamp(timestamps, date, tz_name)` from the source:
empty list gives the local day start converted to UTC; if all seen
timestamps are one unique value, step one second past the last; otherwise
return the last timestamp. -/
def determineNextTimestamp (timestamps : List Int) (date tz : Int) : Int :=
  if timestamps = [] then localDayStart date tz
  else if timestamps.dedup.length = 1 then timestamps.getLastD 0 + 1
  else timestamps.getLastD 0

/-- The cursor rule as the spec words it, for comparison with
`determineNextTimestamp`: the seen timestamps split into the earlier pages'
timestamps and the most recent page's timestamps, with the all-identical
test applied to the most recent page only. -/
def cursorAdvancerSpec (earlier lastPage : List Int) (date tz : Int) : Int :=
  if earlier ++ lastPage = [] then localDayStart date tz
  else if lastPage ≠ [] ∧ lastPage.dedup.length = 1 then lastPage.getLastD 0 + 1
  else (earlier ++ lastPage).getLastD 0

/-- Outcome of a pagination loop run with fuel: the loop either ran out of
fuel (still looping), hit a provider error, or returned data; `calls` counts
provider fetches performed. -/
inductive LoopOut (α : Type) where
  | fuelOut (calls : Nat)
  | provErr (calls : Nat)
  | done (val : α) (calls : Nat)
deriving DecidableEq

/-- The `while True` loop of `request_tick_data`: compute the cursor from
the timestamps accumulated so far, fetch, drop records already accumulated,
stop on an empty page or a stale last timestamp, trim and stop when the last
record's local day leaves the target date, else append and continue. -/
def tickLoop (fetch : Int → Except Unit (List Tick)) (date tz : Int) :
    Nat → List Tick → Nat → LoopOut (List Tick)
  | 0, _, calls => .fuelOut calls
  | fuel + 1, data, calls =>
    let startTime := determineNextTimestamp (data.map (·.time)) date tz
    match fetch startTime with
    | .error _ => .provErr (calls + 1)
    | .ok page =>
      let ticks := page.filter (fun t => decide (t ∉ data))
      if ticks = [] ∨ (ticks.getLastD default).time < startTime then
        .done data (calls + 1)
      else if dayOf (ticks.getLastD default).time tz ≠ date then
        .done (data ++ ticks.filter (fun t => decide (dayOf t.time tz = date))) (calls + 1)
      else
        tickLoop fetch date tz fuel (data ++ ticks) (calls + 1)

/-- `request_tick_data`: run the tick pagination loop from an empty
accumulator. -/
def request_tick_data (fetch : Int → Except Unit (List Tick)) (date tz : Int)
    (fuel calls : Nat) : LoopOut (List Tick) :=
  tickLoop fetch date tz fuel [] calls

/-- The `while True` loop of `request_bar_data`: fetch bars ending at the
current end instant, drop bars already accumulated and zero-volume bars,
stop on an empty page, trim and stop when the earliest bar's local day
leaves the target date, else append and walk the end instant backward. -/
def barLoop (fetch : Int → Except Unit (List Bar)) (date tz : Int) :
    Nat → List Bar → Int → Nat → LoopOut (List Bar)
  | 0, _, _, calls => .fuelOut calls
  | fuel + 1, data, endTime, calls =>
    match fetch endTime with
    | .error _ => .provErr (calls + 1)
    | .ok page =>
      let bars := page.filter (fun b => decide (b ∉ data) && decide (b.volume ≠ 0))
      if bars = [] then .done data (calls + 1)
      else if dayOf (bars.headD default).time tz ≠ date then
        .done (data ++ bars.filter (fun b => decide (dayOf b.time tz = date))) (calls + 1)
      else
        barLoop fetch date tz fuel (data ++ bars) (bars.headD default).time (calls + 1)

/-- `request_bar_data`: run the bar pagination loop from an empty
accumulator with the end instant at the start of the next local day. -/
def request_bar_data (fetch : Int → Except Unit (List Bar)) (date tz : Int)
    (fuel calls : Nat) : LoopOut (List Bar) :=
  barLoop fetch date tz fuel [] (localDayStart date tz + secondsPerDay) calls

/-- `nanos_to_secs` composed with `int(...)`: nanoseconds to whole seconds. -/
def nanosToSecs (n : Nat) : Nat := n / 1000000000

/-- `generate_trade_id(ts_event, price, size)`: format
`f"{int(nanos_to_secs(ts_event))}-{price}-{size}"`; the assertion
`len(id.value) < 36` is modelled as returning `none` (an explicit failure)
when it would fire. -/
def generate_trade_id (tsEvent : Nat) (price size : String) : Option String :=
  let s := toString (nanosToSecs tsEvent) ++ "-" ++ price ++ "-" ++ size
  if s.length < 36 then some s else none

/-- Python's `str.split(sep)` for a single-character separator, on the
character list. -/
def splitCharsAux (sep : Char) : List Char → List Char → List (List Char)
  | [], acc => [acc.reverse]
  | c :: cs, acc =>
    if c = sep then acc.reverse :: splitCharsAux sep cs []
    else splitCharsAux sep cs (c :: acc)

/-- Python's `kind.split("-")` (single-character separator). -/
def pySplit (sep : Char) (s : String) : List String :=
  (splitCharsAux sep s.toList []).map fun l => String.mk l

/-- Python's `kind.split("-", maxsplit=1)[1]`: `none` models the
`IndexError` raised when the separator does not occur. -/
def splitMax1Tail (sep : Char) (s : String) : Option String :=
  match pySplit sep s with
  | [] => none
  | [_] => none
  | _ :: rest => some (String.intercalate (String.mk [sep]) rest)

def barUnits : List String := ["MILLISECOND", "SECOND", "MINUTE", "HOUR", "DAY", "WEEK", "MONTH"]

def priceTypes : List String := ["BID", "ASK", "MID", "LAST"]

/-- Modelled from the spec: `BarSpecification.from_str` (the class lives
outside the excerpted source).  Per the spec's kind-token grammar a bar
specification is `{step}-{unit}-{price field}`; a malformed specification is
an error (`none`). -/
def barSpecFromStr (s : String) : Option (Nat × String × String) :=
  match pySplit '-' s with
  | [st, unit, pt] =>
    match st.toNat? with
    | some n => if unit ∈ barUnits ∧ pt ∈ priceTypes then some (n, unit, pt) else none
    | none => none
  | _ => none

/-- The errors `request_data` / `back_fill_catalog` can surface: a provider
failure, the `RuntimeError(f"Unknown {kind=}")`, the `IndexError` from
splitting a bare `"BARS"` token, a malformed bar specification, and fuel
exhaustion (our marker for a still-running loop). -/
inductive RunErr where
  | provider
  | unknownKind
  | indexError
  | barSpec
  | fuelOut
deriving DecidableEq, Repr

/-- Data returned by `request_data` (parsing to canonical records is
adapter-specific and value-preserving for the fields we model). -/
inductive Records where
  | ticks (l : List Tick)
  | bars (l : List Bar)
deriving DecidableEq

/-- `request_data(instrument, date, kind, tz_name, client)`: dispatch on the
kind token, run the matching paginator, return `none` for an empty result
(`if not raw: return`).  Results carry the provider-call count. -/
def request_data (fetchT : Int → Except Unit (List Tick))
    (fetchB : Int → Except Unit (List Bar)) (date tz : Int) (kind : String)
    (fuel calls : Nat) : Except (RunErr × Nat) (Option Records × Nat) :=
  if kind = "TRADES" ∨ kind = "BID_ASK" then
    match request_tick_data fetchT date tz fuel calls with
    | .fuelOut c => .error (.fuelOut, c)
    | .provErr c => .error (.provider, c)
    | .done d c => .ok (if d = [] then none else some (.ticks d), c)
  else if (pySplit '-' kind).headD "" = "BARS" then
    match splitMax1Tail '-' kind with
    | none => .error (.indexError, calls)
    | some rest =>
      match barSpecFromStr rest with
      | none => .error (.barSpec, calls)
      | some _ =>
        match request_bar_data fetchB date tz fuel calls with
        | .fuelOut c => .error (.fuelOut, c)
        | .provErr c => .error (.provider, c)
        | .done d c => .ok (if d = [] then none else some (.bars d), c)
  else .error (.unknownKind, calls)

/-- Catalog state: the set of written partitions, keyed by
(day, instrument id, kind token), and the set of registered instruments. -/
structure Cat where
  parts : List (Int × Nat × String)
  instrs : List Nat
deriving DecidableEq

/-- One (day, instrument, kind) window of the orchestrator's inner loop:
skip if `catalog.exists(...)`, otherwise fetch via `request_data` and write
the partition when data is non-empty.  An error carries the catalog state
and call count at the moment the exception propagates. -/
def processKind (fetchT : Int → Except Unit (List Tick))
    (fetchB : Int → Except Unit (List Bar)) (tz : Int) (fuel : Nat)
    (day : Int) (iid : Nat) (kind : String) (cat : Cat) (calls : Nat) :
    Except (RunErr × Cat × Nat) (Cat × Nat) :=
  if (day, iid, kind) ∈ cat.parts then .ok (cat, calls)
  else
    match request_data fetchT fetchB day tz kind fuel calls with
    | .error (e, c) => .error (e, cat, c)
    | .ok (none, c) => .ok (cat, c)
    | .ok (some _, c) => .ok ({ cat with parts := cat.parts ++ [(day, iid, kind)] }, c)

/-- The `for kind in kinds` loop. -/
def processKinds (fetchT : Int → Except Unit (List Tick))
    (fetchB : Int → Except Unit (List Bar)) (tz : Int) (fuel : Nat)
    (day : Int) (iid : Nat) :
    List String → Cat → Nat → Except (RunErr × Cat × Nat) (Cat × Nat)
  | [], cat, calls => .ok (cat, calls)
  | k :: ks, cat, calls =>
    match processKind fetchT fetchB tz fuel day iid k cat calls with
    | .error e => .error e
    | .ok (c', n') => processKinds fetchT fetchB tz fuel day iid ks c' n'

/-- One instrument of the `for instrument in instruments` loop: register the
instrument if the catalog does not hold it, then run the kinds loop. -/
def processInstrument (fetchT : Int → Except Unit (List Tick))
    (fetchB : Int → Except Unit (List Bar)) (tz : Int) (fuel : Nat)
    (day : Int) (iid : Nat) (kinds : List String) (cat : Cat) (calls : Nat) :
    Except (RunErr × Cat × Nat) (Cat × Nat) :=
  let cat1 := if iid ∈ cat.instrs then cat else { cat with instrs := cat.instrs ++ [iid] }
  processKinds fetchT fetchB tz fuel day iid kinds cat1 calls

/-- The `for instrument in instruments` loop. -/
def processInstruments (fetchT : Int → Except Unit (List Tick))
    (fetchB : Int → Except Unit (List Bar)) (tz : Int) (fuel : Nat)
    (day : Int) (kinds : List String) :
    List Nat → Cat → Nat → Except (RunErr × Cat × Nat) (Cat × Nat)
  | [], cat, calls => .ok (cat, calls)
  | i :: is, cat, calls =>
    match processInstrument fetchT fetchB tz fuel day i kinds cat calls with
    | .error e => .error e
    | .ok (c', n') => processInstruments fetchT fetchB tz fuel day kinds is c' n'

/-- The `for date in pd.bdate_range(...)` loop. -/
def processDays (fetchT : Int → Except Unit (List Tick))
    (fetchB : Int → Except Unit (List Bar)) (tz : Int) (fuel : Nat)
    (instrs : List Nat) (kinds : List String) :
    List Int → Cat → Nat → Except (RunErr × Cat × Nat) (Cat × Nat)
  | [], cat, calls => .ok (cat, calls)
  | d :: ds, cat, calls =>
    match processInstruments fetchT fetchB tz fuel d kinds instrs cat calls with
    | .error e => .error e
    | .ok (c', n') => processDays fetchT fetchB tz fuel instrs kinds ds c' n'

/-- Monday..Friday, with epoch day 0 (1970-01-01) a Thursday. -/
def isBusinessDay (d : Int) : Bool := (d + 3) % 7 < 5

/-- `pd.bdate_range(start_date, end_date, tz=tz_name)`: the business days
of the inclusive range. -/
def bdateRange (s e : Int) : List Int :=
  ((List.range (e - s + 1).toNat).map fun n => s + (n : Int)).filter isBusinessDay

/-- `back_fill_catalog(client, catalog, instruments, start_date, end_date,
tz_name, kinds)`.  Returns the final catalog and total provider-call count,
or the propagating error with the catalog state at that point. -/
def back_fill_catalog (fetchT : Int → Except Unit (List Tick))
    (fetchB : Int → Except Unit (List Bar)) (instrs : List Nat)
    (s e tz : Int) (kinds : List String) (fuel : Nat) (cat : Cat) :
    Except (RunErr × Cat × Nat) (Cat × Nat) :=
  processDays fetchT fetchB tz fuel instrs kinds (bdateRange s e) cat 0

end Backfill

namespace Backfill

/-! ## Helper lemmas -/

theorem getLastD_mem {α : Type _} : ∀ (l : List α) (d : α), l ≠ [] → l.getLastD d ∈ l := by
  intro l
  induction l with
  | nil => intro d h; exact absurd rfl h
  | cons x xs ih =>
    intro d _
    cases xs with
    | nil => simp
    | cons y ys =>
      rw [List.getLastD_cons]
      exact List.mem_cons_of_mem x (ih x (by simp))

theorem pairwise_le_getLastD {α : Type _} (f : α → Int) :
    ∀ (l : List α) (d : α), l.Pairwise (fun a b => f a ≤ f b) →
      ∀ a ∈ l, f a ≤ f (l.getLastD d) := by
  intro l
  induction l with
  | nil => intro d _ a ha; cases ha
  | cons x xs ih =>
    intro d hp a ha
    rcases List.pairwise_cons.mp hp with ⟨hx, hxs⟩
    cases xs with
    | nil =>
      rcases List.mem_singleton.mp ha with rfl
      simp
    | cons y ys =>
      rw [List.getLastD_cons]
      rcases List.mem_cons.mp ha with rfl | ha'
      · exact hx _ (getLastD_mem (y :: ys) a (by simp))
      · exact ih x hxs a ha'

theorem pairwise_headD_le {α : Type _} (f : α → Int) (l : List α) (d : α)
    (hp : l.Pairwise (fun a b => f a ≤ f b)) : ∀ a ∈ l, f (l.headD d) ≤ f a := by
  cases l with
  | nil => intro a ha; cases ha
  | cons x xs =>
    intro a ha
    rcases List.pairwise_cons.mp hp with ⟨hx, _⟩
    rcases List.mem_cons.mp ha with rfl | ha'
    · simp
    · exact hx a ha'

theorem dayOf_localDayStart (d tz : Int) : dayOf (localDayStart d tz) tz = d := by
  unfold dayOf localDayStart secondsPerDay; omega

theorem dayOf_mono {a b : Int} (tz : Int) (h : a ≤ b) : dayOf a tz ≤ dayOf b tz := by
  unfold dayOf secondsPerDay; omega

theorem dayStart_le_of_dayOf_eq {t tz d : Int} (h : dayOf t tz = d) :
    localDayStart d tz ≤ t := by
  unfold dayOf at h; unfold localDayStart secondsPerDay at *; omega

theorem lt_next_of_dayOf_eq {t tz d : Int} (h : dayOf t tz = d) :
    t < localDayStart d tz + secondsPerDay := by
  unfold dayOf at h; unfold localDayStart secondsPerDay at *; omega

theorem dayOf_le_of_lt_next {t tz d : Int} (h : t < localDayStart d tz + secondsPerDay) :
    dayOf t tz ≤ d := by
  unfold localDayStart secondsPerDay at h; unfold dayOf secondsPerDay; omega

theorem le_dayOf_of_dayStart_le {t tz d : Int} (h : localDayStart d tz ≤ t) :
    d ≤ dayOf t tz := by
  unfold localDayStart secondsPerDay at h; unfold dayOf secondsPerDay; omega

theorem dedup_length_one_of_all_eq (l : List Int) (a : Int) (ha : a ∈ l)
    (hall : ∀ x ∈ l, x = a) : l.dedup.length = 1 := by
  have h1 : ∀ x ∈ l.dedup, x = a := fun x hx => hall x (List.mem_dedup.mp hx)
  have h2 : a ∈ l.dedup := List.mem_dedup.mpr ha
  have h3 : l.dedup.Nodup := l.nodup_dedup
  cases e : l.dedup with
  | nil => rw [e] at h2; cases h2
  | cons x xs =>
    cases xs with
    | nil => rfl
    | cons y ys =>
      exfalso
      rw [e] at h1 h3
      have hx : x = a := h1 x (by simp)
      have hy : y = a := h1 y (by simp)
      rcases List.pairwise_cons.mp h3 with ⟨hne, _⟩
      exact hne y (by simp) (hx.trans hy.symm)

theorem dedup_length_ne_one_of_two (l : List Int) (a b : Int) (ha : a ∈ l)
    (hb : b ∈ l) (hab : a ≠ b) : l.dedup.length ≠ 1 := by
  intro h1
  rcases List.length_eq_one.mp h1 with ⟨x, hx⟩
  have ha' : a ∈ l.dedup := List.mem_dedup.mpr ha
  have hb' : b ∈ l.dedup := List.mem_dedup.mpr hb
  rw [hx] at ha' hb'
  exact hab ((List.mem_singleton.mp ha').trans (List.mem_singleton.mp hb').symm)

/-! ## C2: the cursor function -/

/-- C2 (counterexample): `_determine_next_timestamp` tests whether *all*
seen timestamps are identical, not whether the most recent page's
timestamps are; on the seen sequence `[1, 2, 2]` arising from the pages
`[1]` and `[2, 2]` the code returns `2` while the claim's per-page reading
returns `2 + 1 = 3`. -/
theorem c2_cursor_counterexample :
    determineNextTimestamp [1, 2, 2] 0 0 = 2 ∧
    cursorAdvancerSpec [1] [2, 2] 0 0 = 3 ∧
    determineNextTimestamp ([1] ++ [2, 2]) 0 0 ≠ cursorAdvancerSpec [1] [2, 2] 0 0 := by
  decide

/-- C2 (amended): `_determine_next_timestamp` returns the local day's start
converted to UTC on an empty sequence; when *all seen* timestamps are one
identical value it returns that instant plus one second; and when two seen
timestamps differ it returns the final (latest, for an ordered sequence)
seen timestamp. -/
theorem c2_cursor_amended (ts : List Int) (date tz : Int) :
    (ts = [] → determineNextTimestamp ts date tz = localDayStart date tz) ∧
    (∀ a ∈ ts, (∀ x ∈ ts, x = a) → determineNextTimestamp ts date tz = a + 1) ∧
    (∀ a ∈ ts, ∀ b ∈ ts, a ≠ b →
      determineNextTimestamp ts date tz = ts.getLastD 0 ∧
      (ts.Pairwise (· ≤ ·) → ∀ x ∈ ts, x ≤ determineNextTimestamp ts date tz)) := by
  refine ⟨?_, ?_, ?_⟩
  · intro h; rw [determineNextTimestamp, if_pos h]
  · intro a ha hall
    have hne : ts ≠ [] := by intro h; rw [h] at ha; cases ha
    rw [determineNextTimestamp, if_neg hne,
      if_pos (dedup_length_one_of_all_eq ts a ha hall)]
    rw [hall _ (getLastD_mem ts 0 hne)]
  · intro a ha b hb hab
    have hne : ts ≠ [] := by intro h; rw [h] at ha; cases ha
    have heq : determineNextTimestamp ts date tz = ts.getLastD 0 := by
      rw [determineNextTimestamp, if_neg hne,
        if_neg (dedup_length_ne_one_of_two ts a b ha hb hab)]
    refine ⟨heq, fun hsort x hx => ?_⟩
    rw [heq]
    exact pairwise_le_getLastD (fun t => t) ts 0 hsort x hx

/-- C2 (witness): the three amended cases at concrete inputs. -/
theorem c2_cursor_witness :
    determineNextTimestamp [] 3 7200 = localDayStart 3 7200 ∧
    determineNextTimestamp [5, 5] 0 0 = 5 + 1 ∧
    determineNextTimestamp [1, 2] 0 0 = ([1, 2] : List Int).getLastD 0 :=
  ⟨(c2_cursor_amended [] 3 7200).1 rfl,
   (c2_cursor_amended [5, 5] 0 0).2.1 5 (by decide) (by decide),
   ((c2_cursor_amended [1, 2] 0 0).2.2 1 (by decide) 2 (by decide) (by decide)).1⟩

/-! ## C9: trade-id bound -/

/-- C9: `generate_trade_id` either returns an id string of length strictly
below 36 or fails explicitly (the assertion, modelled as `none`); it is a
pure function of the `(ts_event, price, size)` triple. -/
theorem c9_trade_id_bound (tsEvent : Nat) (price size : String) (s : String)
    (h : generate_trade_id tsEvent price size = some s) : s.length < 36 := by
  simp only [generate_trade_id] at h
  split at h
  · cases h; assumption
  · cases h

/-- C9 (witness): a concrete triple whose id is returned and bounded. -/
theorem c9_trade_id_witness : ("0-1.0-2" : String).length < 36 :=
  c9_trade_id_bound 0 "1.0" "2" "0-1.0-2" (by decide)

/-! ## C10: the bare "BARS" token -/

/-- C10: on the kind token exactly `"BARS"`, `request_data` raises the
`IndexError` from `kind.split("-", maxsplit=1)[1]`, and for any token whose
first hyphen-separated field is `"BARS"` the `RuntimeError` unknown-kind
branch is unreachable. -/
theorem c10_bars_index_error :
    (∀ fetchT fetchB (date tz : Int) (fuel calls : Nat),
      request_data fetchT fetchB date tz "BARS" fuel calls =
        .error (.indexError, calls)) ∧
    (∀ fetchT fetchB (date tz : Int) (kind : String) (fuel calls c : Nat),
      (pySplit '-' kind).headD "" = "BARS" →
      request_data fetchT fetchB date tz kind fuel calls ≠
        .error (.unknownKind, c)) := by
  constructor
  · intro fetchT fetchB date tz fuel calls
    rw [request_data, if_neg (by decide), if_pos (by decide)]
    rw [show splitMax1Tail '-' "BARS" = none from by decide]
  · intro fetchT fetchB date tz kind fuel calls c hhead hcontra
    rw [request_data] at hcontra
    by_cases h1 : kind = "TRADES" ∨ kind = "BID_ASK"
    · rcases h1 with h1 | h1 <;> rw [h1] at hhead <;> exact absurd hhead (by decide)
    · rw [if_neg h1, if_pos hhead] at hcontra
      split at hcontra
      · simp at hcontra
      · split at hcontra
        · simp at hcontra
        · split at hcontra <;> simp at hcontra

/-- C10 (witness): a well-formed bar token does not hit the unknown-kind
branch. -/
theorem c10_bars_witness :
    request_data (fun _ => .ok []) (fun _ => .ok []) 0 0 "BARS-1-MINUTE-LAST" 5 0 ≠
      .error (.unknownKind, 0) :=
  c10_bars_index_error.2 (fun _ => .ok []) (fun _ => .ok []) 0 0
    "BARS-1-MINUTE-LAST" 5 0 0 (by decide)

end Backfill

namespace Backfill

/-! ## Loop unfolding lemmas -/

theorem tickLoop_zero (fetch : Int → Except Unit (List Tick)) (date tz : Int)
    (data : List Tick) (calls : Nat) :
    tickLoop fetch date tz 0 data calls = .fuelOut calls := rfl

theorem tickLoop_succ (fetch : Int → Except Unit (List Tick)) (date tz : Int)
    (fuel : Nat) (data : List Tick) (calls : Nat) :
    tickLoop fetch date tz (fuel + 1) data calls =
      match fetch (determineNextTimestamp (data.map (·.time)) date tz) with
      | .error _ => .provErr (calls + 1)
      | .ok page =>
        if page.filter (fun t => decide (t ∉ data)) = [] ∨
            ((page.filter (fun t => decide (t ∉ data))).getLastD default).time <
              determineNextTimestamp (data.map (·.time)) date tz then
          .done data (calls + 1)
        else if dayOf ((page.filter (fun t => decide (t ∉ data))).getLastD default).time tz
            ≠ date then
          .done (data ++ (page.filter (fun t => decide (t ∉ data))).filter
            (fun t => decide (dayOf t.time tz = date))) (calls + 1)
        else
          tickLoop fetch date tz fuel
            (data ++ page.filter (fun t => decide (t ∉ data))) (calls + 1) := rfl

theorem barLoop_zero (fetch : Int → Except Unit (List Bar)) (date tz : Int)
    (data : List Bar) (endTime : Int) (calls : Nat) :
    barLoop fetch date tz 0 data endTime calls = .fuelOut calls := rfl

theorem barLoop_succ (fetch : Int → Except Unit (List Bar)) (date tz : Int)
    (fuel : Nat) (data : List Bar) (endTime : Int) (calls : Nat) :
    barLoop fetch date tz (fuel + 1) data endTime calls =
      match fetch endTime with
      | .error _ => .provErr (calls + 1)
      | .ok page =>
        if page.filter (fun b => decide (b ∉ data) && decide (b.volume ≠ 0)) = [] then
          .done data (calls + 1)
        else if dayOf ((page.filter (fun b => decide (b ∉ data) && decide (b.volume ≠ 0))).headD
            default).time tz ≠ date then
          .done (data ++ (page.filter (fun b => decide (b ∉ data) && decide (b.volume ≠ 0))).filter
            (fun b => decide (dayOf b.time tz = date))) (calls + 1)
        else
          barLoop fetch date tz fuel
            (data ++ page.filter (fun b => decide (b ∉ data) && decide (b.volume ≠ 0)))
            ((page.filter (fun b => decide (b ∉ data) && decide (b.volume ≠ 0))).headD
              default).time (calls + 1) := rfl

/-! ## C7: deduplication -/

/-- Within one step, the records a tick page contributes are not already
accumulated. -/
theorem mem_tick_filter_not_mem {page data : List Tick} {t : Tick}
    (h : t ∈ page.filter (fun t => decide (t ∉ data))) : t ∈ page ∧ t ∉ data := by
  rcases List.mem_filter.mp h with ⟨h1, h2⟩
  exact ⟨h1, of_decide_eq_true h2⟩

/-- Within one step, the records a bar page contributes are not already
accumulated and have non-zero volume. -/
theorem mem_bar_filter_not_mem {page data : List Bar} {b : Bar}
    (h : b ∈ page.filter (fun b => decide (b ∉ data) && decide (b.volume ≠ 0))) :
    b ∈ page ∧ b ∉ data ∧ b.volume ≠ 0 := by
  rcases List.mem_filter.mp h with ⟨h1, h2⟩
  rcases Bool.and_eq_true_iff.mp h2 with ⟨h3, h4⟩
  exact ⟨h1, of_decide_eq_true h3, of_decide_eq_true h4⟩

theorem nodup_append_of_not_mem {α : Type _} {l₁ l₂ : List α}
    (h₁ : l₁.Nodup) (h₂ : l₂.Nodup) (h : ∀ a ∈ l₂, a ∉ l₁) : (l₁ ++ l₂).Nodup := by
  rw [List.nodup_append]
  exact ⟨h₁, h₂, fun a ha hb => h a hb ha⟩

theorem tickLoop_nodup (fetch : Int → Except Unit (List Tick)) (date tz : Int)
    (hp : ∀ c page, fetch c = .ok page → page.Nodup) :
    ∀ (fuel : Nat) (data : List Tick) (calls : Nat) (res : List Tick) (k : Nat),
      data.Nodup → tickLoop fetch date tz fuel data calls = .done res k → res.Nodup := by
  intro fuel
  induction fuel with
  | zero => intro data calls res k _ h; rw [tickLoop_zero] at h; cases h
  | succ n ih =>
    intro data calls res k hnd h
    rw [tickLoop_succ] at h
    split at h
    · cases h
    next page hfetch =>
      have hpage : page.Nodup := hp _ page hfetch
      have hticksnd : (page.filter (fun t => decide (t ∉ data))).Nodup := hpage.filter _
      have hdisj : ∀ t ∈ page.filter (fun t => decide (t ∉ data)), t ∉ data :=
        fun t ht => (mem_tick_filter_not_mem ht).2
      split at h
      · cases h; exact hnd
      · split at h
        · cases h
          exact nodup_append_of_not_mem hnd (hticksnd.filter _)
            (fun t ht => hdisj t (List.mem_of_mem_filter ht))
        · exact ih _ _ res k (nodup_append_of_not_mem hnd hticksnd hdisj) h

theorem barLoop_nodup (fetch : Int → Except Unit (List Bar)) (date tz : Int)
    (hp : ∀ c page, fetch c = .ok page → page.Nodup) :
    ∀ (fuel : Nat) (data : List Bar) (endTime : Int) (calls : Nat) (res : List Bar) (k : Nat),
      data.Nodup → barLoop fetch date tz fuel data endTime calls = .done res k →
      res.Nodup := by
  intro fuel
  induction fuel with
  | zero => intro data endTime calls res k _ h; rw [barLoop_zero] at h; cases h
  | succ n ih =>
    intro data endTime calls res k hnd h
    rw [barLoop_succ] at h
    split at h
    · cases h
    next page hfetch =>
      have hpage : page.Nodup := hp _ page hfetch
      have hbarsnd : (page.filter (fun b => decide (b ∉ data) && decide (b.volume ≠ 0))).Nodup :=
        hpage.filter _
      have hdisj : ∀ b ∈ page.filter (fun b => decide (b ∉ data) && decide (b.volume ≠ 0)),
          b ∉ data := fun b hb => (mem_bar_filter_not_mem hb).2.1
      split at h
      · cases h; exact hnd
      · split at h
        · cases h
          exact nodup_append_of_not_mem hnd (hbarsnd.filter _)
            (fun b hb => hdisj b (List.mem_of_mem_filter hb))
        · exact ih _ _ _ res k (nodup_append_of_not_mem hnd hbarsnd hdisj) h

/-- C7 (counterexample): the page filter `[t for t in ticks if t not in data]`
does not deduplicate within a page, so a provider page containing the same
record twice yields a duplicated output: the returned accumulated sequence
is `[r, r]`, which is not duplicate-free. -/
theorem c7_dedup_counterexample :
    request_tick_data (fun _ => .ok [⟨0, 7⟩, ⟨0, 7⟩]) 0 0 3 0 =
      .done [⟨0, 7⟩, ⟨0, 7⟩] 2 ∧
    ¬ ([⟨0, 7⟩, ⟨0, 7⟩] : List Tick).Nodup := by decide

/-- C7 (amended): provided every provider page is internally duplicate-free,
one paginator invocation (tick or bar) returns a sequence with no two
value-equal records — no record is re-emitted across pages. -/
theorem c7_dedup_amended (fetchT : Int → Except Unit (List Tick))
    (fetchB : Int → Except Unit (List Bar)) (date tz : Int)
    (hT : ∀ c page, fetchT c = .ok page → page.Nodup)
    (hB : ∀ c page, fetchB c = .ok page → page.Nodup) (fuel calls : Nat) :
    (∀ res k, request_tick_data fetchT date tz fuel calls = .done res k → res.Nodup) ∧
    (∀ res k, request_bar_data fetchB date tz fuel calls = .done res k → res.Nodup) :=
  ⟨fun res k h => tickLoop_nodup fetchT date tz hT fuel [] calls res k List.nodup_nil h,
   fun res k h => barLoop_nodup fetchB date tz hB fuel [] _ calls res k List.nodup_nil h⟩

/-- C7 (witness): concrete duplicate-free providers give duplicate-free
output. -/
theorem c7_dedup_witness :
    ([⟨5, 0⟩, ⟨5, 1⟩] : List Tick).Nodup ∧ ([⟨5, 1, 0⟩] : List Bar).Nodup :=
  ⟨(c7_dedup_amended (fun c => .ok (if c ≤ 5 then [⟨5, 0⟩, ⟨5, 1⟩] else []))
      (fun c => .ok (if 5 < c then [⟨5, 1, 0⟩] else [])) 0 0
      (fun c page h => by
        cases h
        split <;> decide)
      (fun c page h => by
        cases h
        split <;> decide) 3 0).1 [⟨5, 0⟩, ⟨5, 1⟩] 2 (by decide),
   (c7_dedup_amended (fun c => .ok (if c ≤ 5 then [⟨5, 0⟩, ⟨5, 1⟩] else []))
      (fun c => .ok (if 5 < c then [⟨5, 1, 0⟩] else [])) 0 0
      (fun c page h => by
        cases h
        split <;> decide)
      (fun c page h => by
        cases h
        split <;> decide) 3 0).2 [⟨5, 1, 0⟩] 2 (by decide)⟩

/-! ## C8: tick-loop stop condition -/

/-- C8: one iteration of the `request_tick_data` loop stops, returning the
accumulator, exactly when the page filtered of already-seen records is empty
or its last record's timestamp is strictly before the query cursor;
otherwise, subject to the day-boundary stop, it appends the filtered page
and continues. -/
theorem c8_stop_condition (fetch : Int → Except Unit (List Tick)) (date tz : Int)
    (fuel : Nat) (data : List Tick) (calls : Nat) (page : List Tick)
    (hfetch : fetch (determineNextTimestamp (data.map (·.time)) date tz) = Except.ok page) :
    (page.filter (fun t => decide (t ∉ data)) = [] ∨
        ((page.filter (fun t => decide (t ∉ data))).getLastD default).time <
          determineNextTimestamp (data.map (·.time)) date tz →
      tickLoop fetch date tz (fuel + 1) data calls = .done data (calls + 1)) ∧
    (¬ (page.filter (fun t => decide (t ∉ data)) = [] ∨
        ((page.filter (fun t => decide (t ∉ data))).getLastD default).time <
          determineNextTimestamp (data.map (·.time)) date tz) →
      dayOf ((page.filter (fun t => decide (t ∉ data))).getLastD default).time tz ≠ date →
      tickLoop fetch date tz (fuel + 1) data calls =
        .done (data ++ (page.filter (fun t => decide (t ∉ data))).filter
          (fun t => decide (dayOf t.time tz = date))) (calls + 1)) ∧
    (¬ (page.filter (fun t => decide (t ∉ data)) = [] ∨
        ((page.filter (fun t => decide (t ∉ data))).getLastD default).time <
          determineNextTimestamp (data.map (·.time)) date tz) →
      dayOf ((page.filter (fun t => decide (t ∉ data))).getLastD default).time tz = date →
      tickLoop fetch date tz (fuel + 1) data calls =
        tickLoop fetch date tz fuel
          (data ++ page.filter (fun t => decide (t ∉ data))) (calls + 1)) := by
  have hstep : tickLoop fetch date tz (fuel + 1) data calls =
      (if page.filter (fun t => decide (t ∉ data)) = [] ∨
          ((page.filter (fun t => decide (t ∉ data))).getLastD default).time <
            determineNextTimestamp (data.map (·.time)) date tz then
        .done data (calls + 1)
      else if dayOf ((page.filter (fun t => decide (t ∉ data))).getLastD default).time tz
          ≠ date then
        .done (data ++ (page.filter (fun t => decide (t ∉ data))).filter
          (fun t => decide (dayOf t.time tz = date))) (calls + 1)
      else
        tickLoop fetch date tz fuel
          (data ++ page.filter (fun t => decide (t ∉ data))) (calls + 1)) := by
    rw [tickLoop_succ, hfetch]
  refine ⟨fun h => ?_, fun h hd => ?_, fun h hd => ?_⟩
  · rw [hstep, if_pos h]
  · rw [hstep, if_neg h, if_pos hd]
  · rw [hstep, if_neg h, if_neg (by simpa using hd)]

/-- C8 (witness): the stop and continue cases at concrete inputs. -/
theorem c8_stop_witness :
    tickLoop (fun _ => Except.ok []) 0 0 1 [] 0 = .done [] 1 ∧
    tickLoop (fun _ => Except.ok [⟨5, 0⟩]) 0 0 1 [] 0 =
      tickLoop (fun _ => Except.ok [⟨5, 0⟩]) 0 0 0
        ([] ++ ([⟨5, 0⟩] : List Tick).filter (fun t => decide (t ∉ ([] : List Tick)))) 1 :=
  ⟨(c8_stop_condition (fun _ => Except.ok []) 0 0 0 [] 0 [] rfl).1 (Or.inl rfl),
   (c8_stop_condition (fun _ => Except.ok [⟨5, 0⟩]) 0 0 0 [] 0 [⟨5, 0⟩] rfl).2.2
     (by decide) (by decide)⟩

end Backfill

namespace Backfill

/-! ## C3: termination under a finite record universe -/

theorem length_filter_le_of_imp {α : Type _} (p q : α → Bool)
    (himp : ∀ a, q a = true → p a = true) :
    ∀ l : List α, (l.filter q).length ≤ (l.filter p).length := by
  intro l
  induction l with
  | nil => simp
  | cons x xs ih =>
    by_cases hq : q x = true
    · rw [List.filter_cons_of_pos hq, List.filter_cons_of_pos (himp x hq)]
      simpa using ih
    · rw [List.filter_cons_of_neg (by simpa using hq)]
      by_cases hp : p x = true
      · rw [List.filter_cons_of_pos hp]
        exact ih.trans (by simp)
      · rw [List.filter_cons_of_neg (by simpa using hp)]
        exact ih

theorem length_filter_lt {α : Type _} (p q : α → Bool)
    (himp : ∀ a, q a = true → p a = true) :
    ∀ (l : List α) (a : α), a ∈ l → p a = true → q a = false →
      (l.filter q).length < (l.filter p).length := by
  intro l
  induction l with
  | nil => intro a ha; cases ha
  | cons x xs ih =>
    intro a ha hpa hqa
    rcases List.mem_cons.mp ha with rfl | ha'
    · rw [List.filter_cons_of_neg (by simp [hqa]), List.filter_cons_of_pos hpa]
      exact Nat.lt_succ_of_le (length_filter_le_of_imp p q himp xs)
    · have hlt := ih a ha' hpa hqa
      by_cases hq : q x = true
      · rw [List.filter_cons_of_pos hq, List.filter_cons_of_pos (himp x hq)]
        simpa using hlt
      · rw [List.filter_cons_of_neg (by simpa using hq)]
        by_cases hp : p x = true
        · rw [List.filter_cons_of_pos hp]
          exact hlt.trans (by simp)
        · rw [List.filter_cons_of_neg (by simpa using hp)]
          exact hlt

theorem tickLoop_terminates (fetch : Int → List Tick) (allR : List Tick)
    (date tz : Int) (hU : ∀ c, ∀ t ∈ fetch c, t ∈ allR) :
    ∀ (fuel : Nat) (data : List Tick) (calls : Nat),
      (allR.filter (fun a => decide (a ∉ data))).length < fuel →
      ∃ res k, tickLoop (fun c => .ok (fetch c)) date tz fuel data calls = .done res k := by
  intro fuel
  induction fuel with
  | zero => intro data calls h; cases h
  | succ n ih =>
    intro data calls hmeas
    set cursor := determineNextTimestamp (data.map (·.time)) date tz with hc
    have hstep : tickLoop (fun c => .ok (fetch c)) date tz (n + 1) data calls =
        (if (fetch cursor).filter (fun t => decide (t ∉ data)) = [] ∨
            (((fetch cursor).filter (fun t => decide (t ∉ data))).getLastD default).time <
              cursor then
          .done data (calls + 1)
        else if dayOf (((fetch cursor).filter
            (fun t => decide (t ∉ data))).getLastD default).time tz ≠ date then
          .done (data ++ ((fetch cursor).filter (fun t => decide (t ∉ data))).filter
            (fun t => decide (dayOf t.time tz = date))) (calls + 1)
        else
          tickLoop (fun c => .ok (fetch c)) date tz n
            (data ++ (fetch cursor).filter (fun t => decide (t ∉ data))) (calls + 1)) := by
      rw [tickLoop_succ]
    rw [hstep]
    by_cases h1 : (fetch cursor).filter (fun t => decide (t ∉ data)) = [] ∨
        (((fetch cursor).filter (fun t => decide (t ∉ data))).getLastD default).time < cursor
    · exact ⟨data, calls + 1, by rw [if_pos h1]⟩
    · by_cases h2 : dayOf (((fetch cursor).filter
          (fun t => decide (t ∉ data))).getLastD default).time tz ≠ date
      · exact ⟨_, calls + 1, by rw [if_neg h1, if_pos h2]⟩
      · have hne : (fetch cursor).filter (fun t => decide (t ∉ data)) ≠ [] :=
          fun he => h1 (Or.inl he)
        obtain ⟨t0, ht0⟩ := List.exists_mem_of_ne_nil _ hne
        have ht0' := mem_tick_filter_not_mem ht0
        have hmeas' : (allR.filter (fun a => decide
            (a ∉ data ++ (fetch cursor).filter (fun t => decide (t ∉ data))))).length <
            (allR.filter (fun a => decide (a ∉ data))).length := by
          refine length_filter_lt _ _ (fun a ha => ?_) allR t0
            (hU cursor t0 ht0'.1) (decide_eq_true ht0'.2) ?_
          · have := of_decide_eq_true ha
            exact decide_eq_true fun hmem => this (List.mem_append_left _ hmem)
          · exact decide_eq_false fun hnot => hnot (List.mem_append_right _ ht0)
        obtain ⟨res, k, hres⟩ := ih (data ++ (fetch cursor).filter
          (fun t => decide (t ∉ data))) (calls + 1) (by omega)
        exact ⟨res, k, by rw [if_neg h1, if_neg h2]; exact hres⟩

/-- C3: for a provider that is a pure function of the cursor drawing from a
finite universe of records — in particular one whose every page shares one
timestamp — the `request_tick_data` pagination loop terminates within
`|universe| + 1` iterations (it never exhausts that much fuel). -/
theorem c3_termination (fetch : Int → List Tick) (allR : List Tick) (date tz : Int)
    (hU : ∀ c, ∀ t ∈ fetch c, t ∈ allR) (calls : Nat) :
    ∃ res k, request_tick_data (fun c => .ok (fetch c)) date tz
      (allR.length + 1) calls = .done res k :=
  tickLoop_terminates fetch allR date tz hU (allR.length + 1) [] calls
    (Nat.lt_succ_of_le (List.length_filter_le _ allR))

/-- C3 (witness): a provider returning two records sharing one timestamp on
every call terminates with that fuel bound. -/
theorem c3_termination_witness :
    ∃ res k, request_tick_data (fun _ => .ok [⟨5, 0⟩, ⟨5, 1⟩]) 0 0 3 0 = .done res k :=
  c3_termination (fun _ => [⟨5, 0⟩, ⟨5, 1⟩]) [⟨5, 0⟩, ⟨5, 1⟩] 0 0
    (fun _ _ ht => ht) 0

end Backfill

namespace Backfill

/-! ## C6: no cross-day leakage -/

theorem tickLoop_day_inv (fetch : Int → List Tick) (date tz : Int)
    (hsort : ∀ c, (fetch c).Pairwise (fun a b => a.time ≤ b.time))
    (hge : ∀ c, ∀ t ∈ fetch c, c ≤ t.time) :
    ∀ (fuel : Nat) (data : List Tick) (calls : Nat) (res : List Tick) (k : Nat),
      (∀ t ∈ data, dayOf t.time tz = date) →
      tickLoop (fun c => .ok (fetch c)) date tz fuel data calls = .done res k →
      ∀ t ∈ res, dayOf t.time tz = date := by
  intro fuel
  induction fuel with
  | zero => intro data calls res k _ h; rw [tickLoop_zero] at h; cases h
  | succ n ih =>
    intro data calls res k hdata h
    set cursor := determineNextTimestamp (data.map (·.time)) date tz with hc
    have hcur : localDayStart date tz ≤ cursor := by
      rw [hc, determineNextTimestamp]
      by_cases hd : data.map (·.time) = []
      · rw [if_pos hd]
      · rw [if_neg hd]
        have hmem := getLastD_mem (data.map (·.time)) 0 hd
        rcases List.mem_map.mp hmem with ⟨t, htd, hteq⟩
        have hle := dayStart_le_of_dayOf_eq (hdata t htd)
        rw [hteq] at hle
        split <;> omega
    have hstep : tickLoop (fun c => .ok (fetch c)) date tz (n + 1) data calls =
        (if (fetch cursor).filter (fun t => decide (t ∉ data)) = [] ∨
            (((fetch cursor).filter (fun t => decide (t ∉ data))).getLastD default).time <
              cursor then
          .done data (calls + 1)
        else if dayOf (((fetch cursor).filter
            (fun t => decide (t ∉ data))).getLastD default).time tz ≠ date then
          .done (data ++ ((fetch cursor).filter (fun t => decide (t ∉ data))).filter
            (fun t => decide (dayOf t.time tz = date))) (calls + 1)
        else
          tickLoop (fun c => .ok (fetch c)) date tz n
            (data ++ (fetch cursor).filter (fun t => decide (t ∉ data))) (calls + 1)) := by
      rw [tickLoop_succ]
    rw [hstep] at h
    split at h
    · cases h; exact hdata
    · split at h
      next hday =>
        cases h
        intro t ht
        rcases List.mem_append.mp ht with h1 | h2
        · exact hdata t h1
        · exact of_decide_eq_true (List.mem_filter.mp h2).2
      next hday =>
        have hlastday : dayOf (((fetch cursor).filter
            (fun t => decide (t ∉ data))).getLastD default).time tz = date :=
          not_ne_iff.mp hday
        refine ih (data ++ (fetch cursor).filter (fun t => decide (t ∉ data)))
          (calls + 1) res k ?_ h
        intro t ht
        rcases List.mem_append.mp ht with h1 | h2
        · exact hdata t h1
        · have h3 := mem_tick_filter_not_mem h2
          have hge' : cursor ≤ t.time := hge cursor t h3.1
          have hub : t.time ≤ (((fetch cursor).filter
              (fun t => decide (t ∉ data))).getLastD default).time := by
            refine pairwise_le_getLastD (fun x => x.time) _ default ?_ t h2
            exact List.Pairwise.sublist (List.filter_sublist _) (hsort cursor)
          have hlow : date ≤ dayOf t.time tz :=
            le_dayOf_of_dayStart_le (le_trans hcur hge')
          have hhigh : dayOf t.time tz ≤ date := by
            have hm := dayOf_mono tz hub
            rw [hlastday] at hm
            exact hm
          omega

theorem barLoop_day_inv (fetch : Int → List Bar) (date tz : Int)
    (hsort : ∀ c, (fetch c).Pairwise (fun a b => a.time ≤ b.time))
    (hlt : ∀ c, ∀ b ∈ fetch c, b.time < c) :
    ∀ (fuel : Nat) (data : List Bar) (endTime : Int) (calls : Nat) (res : List Bar) (k : Nat),
      (∀ b ∈ data, dayOf b.time tz = date) →
      endTime ≤ localDayStart date tz + secondsPerDay →
      barLoop (fun c => .ok (fetch c)) date tz fuel data endTime calls = .done res k →
      ∀ b ∈ res, dayOf b.time tz = date := by
  intro fuel
  induction fuel with
  | zero => intro data endTime calls res k _ _ h; rw [barLoop_zero] at h; cases h
  | succ n ih =>
    intro data endTime calls res k hdata hend h
    have hstep : barLoop (fun c => .ok (fetch c)) date tz (n + 1) data endTime calls =
        (if (fetch endTime).filter (fun b => decide (b ∉ data) && decide (b.volume ≠ 0))
            = [] then
          .done data (calls + 1)
        else if dayOf (((fetch endTime).filter
            (fun b => decide (b ∉ data) && decide (b.volume ≠ 0))).headD default).time tz
            ≠ date then
          .done (data ++ ((fetch endTime).filter
            (fun b => decide (b ∉ data) && decide (b.volume ≠ 0))).filter
            (fun b => decide (dayOf b.time tz = date))) (calls + 1)
        else
          barLoop (fun c => .ok (fetch c)) date tz n
            (data ++ (fetch endTime).filter
              (fun b => decide (b ∉ data) && decide (b.volume ≠ 0)))
            (((fetch endTime).filter
              (fun b => decide (b ∉ data) && decide (b.volume ≠ 0))).headD default).time
            (calls + 1)) := by
      rw [barLoop_succ]
    rw [hstep] at h
    have hbday : ∀ b ∈ (fetch endTime).filter
        (fun b => decide (b ∉ data) && decide (b.volume ≠ 0)),
        dayOf b.time tz ≤ date := by
      intro b hb
      have h3 := mem_bar_filter_not_mem hb
      exact dayOf_le_of_lt_next (lt_of_lt_of_le (hlt endTime b h3.1) hend)
    split at h
    · cases h; exact hdata
    · split at h
      next hday =>
        cases h
        intro b hb
        rcases List.mem_append.mp hb with h1 | h2
        · exact hdata b h1
        · exact of_decide_eq_true (List.mem_filter.mp h2).2
      next hday =>
        have hheadday : dayOf (((fetch endTime).filter
            (fun b => decide (b ∉ data) && decide (b.volume ≠ 0))).headD default).time tz
            = date := not_ne_iff.mp hday
        have hinv : ∀ b ∈ data ++ (fetch endTime).filter
            (fun b => decide (b ∉ data) && decide (b.volume ≠ 0)),
            dayOf b.time tz = date := by
          intro b hb
          rcases List.mem_append.mp hb with h1 | h2
          · exact hdata b h1
          · have hlb : (((fetch endTime).filter
                (fun b => decide (b ∉ data) && decide (b.volume ≠ 0))).headD default).time
                ≤ b.time := by
              refine pairwise_headD_le (fun x => x.time) _ default ?_ b h2
              exact List.Pairwise.sublist (List.filter_sublist _) (hsort endTime)
            have hlow : date ≤ dayOf b.time tz := by
              have hm := dayOf_mono tz hlb
              rw [hheadday] at hm
              exact hm
            have hhigh := hbday b h2
            omega
        refine ih _ _ (calls + 1) res k hinv ?_ h
        exact le_of_lt (lt_next_of_dayOf_eq hheadday)

/-- C6: under the provider contract of the spec (chronologically ordered
tick pages whose entries are at or after the queried cursor; ordered bar
pages whose entries are strictly before the queried end instant), every
record returned by `request_tick_data` or `request_bar_data` has local
calendar day, computed in the run's timezone, equal to the window's target
day. -/
theorem c6_no_cross_day (fetchT : Int → List Tick) (fetchB : Int → List Bar)
    (date tz : Int) (fuel calls : Nat) :
    ((∀ c, (fetchT c).Pairwise (fun a b => a.time ≤ b.time)) →
      (∀ c, ∀ t ∈ fetchT c, c ≤ t.time) →
      ∀ res k, request_tick_data (fun c => .ok (fetchT c)) date tz fuel calls =
        .done res k → ∀ t ∈ res, dayOf t.time tz = date) ∧
    ((∀ c, (fetchB c).Pairwise (fun a b => a.time ≤ b.time)) →
      (∀ c, ∀ b ∈ fetchB c, b.time < c) →
      ∀ res k, request_bar_data (fun c => .ok (fetchB c)) date tz fuel calls =
        .done res k → ∀ b ∈ res, dayOf b.time tz = date) :=
  ⟨fun hs hg res k h =>
    tickLoop_day_inv fetchT date tz hs hg fuel [] calls res k (by simp) h,
   fun hs hl res k h =>
    barLoop_day_inv fetchB date tz hs hl fuel [] _ calls res k (by simp) (le_refl _) h⟩

/-- C6 (witness): concrete well-behaved tick and bar providers produce only
records of the target day. -/
theorem c6_no_cross_day_witness :
    (∀ t ∈ ([⟨5, 0⟩, ⟨5, 1⟩] : List Tick), dayOf t.time 0 = 0) ∧
    (∀ b ∈ ([⟨5, 1, 0⟩] : List Bar), dayOf b.time 0 = 0) :=
  ⟨(c6_no_cross_day (fun c => if c ≤ 5 then [⟨5, 0⟩, ⟨5, 1⟩] else [])
      (fun c => if 5 < c then [⟨5, 1, 0⟩] else []) 0 0 3 0).1
    (fun c => by by_cases h : c ≤ 5 <;> simp [h])
    (fun c t ht => by
      by_cases h : c ≤ 5
      · rw [if_pos h] at ht
        rcases List.mem_cons.mp ht with rfl | ht'
        · exact h
        · rcases List.mem_singleton.mp ht' with rfl
          exact h
      · rw [if_neg h] at ht; cases ht)
    [⟨5, 0⟩, ⟨5, 1⟩] 2 (by decide),
   (c6_no_cross_day (fun c => if c ≤ 5 then [⟨5, 0⟩, ⟨5, 1⟩] else [])
      (fun c => if 5 < c then [⟨5, 1, 0⟩] else []) 0 0 3 0).2
    (fun c => by by_cases h : 5 < c <;> simp [h])
    (fun c b hb => by
      by_cases h : 5 < c
      · rw [if_pos h] at hb
        rcases List.mem_singleton.mp hb with rfl
        exact h
      · rw [if_neg h] at hb; cases hb)
    [⟨5, 1, 0⟩] 2 (by decide)⟩

end Backfill

namespace Backfill

/-! ## Orchestrator unfolding lemmas -/

theorem processKinds_nil (fetchT : Int → Except Unit (List Tick))
    (fetchB : Int → Except Unit (List Bar)) (tz : Int) (fuel : Nat) (day : Int)
    (iid : Nat) (cat : Cat) (calls : Nat) :
    processKinds fetchT fetchB tz fuel day iid [] cat calls = .ok (cat, calls) := rfl

theorem processKinds_cons (fetchT : Int → Except Unit (List Tick))
    (fetchB : Int → Except Unit (List Bar)) (tz : Int) (fuel : Nat) (day : Int)
    (iid : Nat) (k : String) (ks : List String) (cat : Cat) (calls : Nat) :
    processKinds fetchT fetchB tz fuel day iid (k :: ks) cat calls =
      match processKind fetchT fetchB tz fuel day iid k cat calls with
      | .error e => .error e
      | .ok (c', n') => processKinds fetchT fetchB tz fuel day iid ks c' n' := rfl

theorem processInstruments_nil (fetchT : Int → Except Unit (List Tick))
    (fetchB : Int → Except Unit (List Bar)) (tz : Int) (fuel : Nat) (day : Int)
    (kinds : List String) (cat : Cat) (calls : Nat) :
    processInstruments fetchT fetchB tz fuel day kinds [] cat calls = .ok (cat, calls) := rfl

theorem processInstruments_cons (fetchT : Int → Except Unit (List Tick))
    (fetchB : Int → Except Unit (List Bar)) (tz : Int) (fuel : Nat) (day : Int)
    (kinds : List String) (i : Nat) (is : List Nat) (cat : Cat) (calls : Nat) :
    processInstruments fetchT fetchB tz fuel day kinds (i :: is) cat calls =
      match processInstrument fetchT fetchB tz fuel day i kinds cat calls with
      | .error e => .error e
      | .ok (c', n') => processInstruments fetchT fetchB tz fuel day kinds is c' n' := rfl

theorem processDays_nil (fetchT : Int → Except Unit (List Tick))
    (fetchB : Int → Except Unit (List Bar)) (tz : Int) (fuel : Nat)
    (instrs : List Nat) (kinds : List String) (cat : Cat) (calls : Nat) :
    processDays fetchT fetchB tz fuel instrs kinds [] cat calls = .ok (cat, calls) := rfl

theorem processDays_cons (fetchT : Int → Except Unit (List Tick))
    (fetchB : Int → Except Unit (List Bar)) (tz : Int) (fuel : Nat)
    (instrs : List Nat) (kinds : List String) (d : Int) (ds : List Int)
    (cat : Cat) (calls : Nat) :
    processDays fetchT fetchB tz fuel instrs kinds (d :: ds) cat calls =
      match processInstruments fetchT fetchB tz fuel d kinds instrs cat calls with
      | .error e => .error e
      | .ok (c', n') => processDays fetchT fetchB tz fuel instrs kinds ds c' n' := rfl

/-! ## C1: idempotent skip of existing partitions -/

theorem processKinds_all_exist (fetchT : Int → Except Unit (List Tick))
    (fetchB : Int → Except Unit (List Bar)) (tz : Int) (fuel : Nat) (day : Int)
    (iid : Nat) :
    ∀ (kinds : List String) (cat : Cat) (calls : Nat),
      (∀ k ∈ kinds, (day, iid, k) ∈ cat.parts) →
      processKinds fetchT fetchB tz fuel day iid kinds cat calls = .ok (cat, calls) := by
  intro kinds
  induction kinds with
  | nil => intro cat calls _; rfl
  | cons k ks ih =>
    intro cat calls hall
    have h1 : processKind fetchT fetchB tz fuel day iid k cat calls = .ok (cat, calls) := by
      rw [processKind, if_pos (hall k (by simp))]
    rw [processKinds_cons, h1]
    exact ih cat calls fun k' hk' => hall k' (List.mem_cons_of_mem _ hk')

theorem processInstruments_all_exist (fetchT : Int → Except Unit (List Tick))
    (fetchB : Int → Except Unit (List Bar)) (tz : Int) (fuel : Nat) (day : Int)
    (kinds : List String) :
    ∀ (ilist : List Nat) (cat : Cat) (calls : Nat),
      (∀ i ∈ ilist, i ∈ cat.instrs) →
      (∀ i ∈ ilist, ∀ k ∈ kinds, (day, i, k) ∈ cat.parts) →
      processInstruments fetchT fetchB tz fuel day kinds ilist cat calls =
        .ok (cat, calls) := by
  intro ilist
  induction ilist with
  | nil => intro cat calls _ _; rfl
  | cons i is ih =>
    intro cat calls hreg hall
    have h1 : processInstrument fetchT fetchB tz fuel day i kinds cat calls =
        .ok (cat, calls) := by
      simp only [processInstrument]
      rw [if_pos (hreg i (by simp))]
      exact processKinds_all_exist fetchT fetchB tz fuel day i kinds cat calls
        (hall i (by simp))
    rw [processInstruments_cons, h1]
    exact ih cat calls (fun i' hi' => hreg i' (List.mem_cons_of_mem _ hi'))
      (fun i' hi' => hall i' (List.mem_cons_of_mem _ hi'))

theorem processDays_all_exist (fetchT : Int → Except Unit (List Tick))
    (fetchB : Int → Except Unit (List Bar)) (tz : Int) (fuel : Nat)
    (instrs : List Nat) (kinds : List String) :
    ∀ (days : List Int) (cat : Cat) (calls : Nat),
      (∀ d ∈ days, ∀ i ∈ instrs, ∀ k ∈ kinds, (d, i, k) ∈ cat.parts) →
      (∀ i ∈ instrs, i ∈ cat.instrs) →
      processDays fetchT fetchB tz fuel instrs kinds days cat calls = .ok (cat, calls) := by
  intro days
  induction days with
  | nil => intro cat calls _ _; rfl
  | cons d ds ih =>
    intro cat calls hall hreg
    have h1 : processInstruments fetchT fetchB tz fuel d kinds instrs cat calls =
        .ok (cat, calls) :=
      processInstruments_all_exist fetchT fetchB tz fuel d kinds instrs cat calls hreg
        (fun i hi => hall d (by simp) i hi)
    rw [processDays_cons, h1]
    exact ih cat calls (fun d' hd' => hall d' (List.mem_cons_of_mem _ hd')) hreg

theorem processKind_instrs_eq {fetchT : Int → Except Unit (List Tick)}
    {fetchB : Int → Except Unit (List Bar)} {tz : Int} {fuel : Nat} {day : Int}
    {iid : Nat} {kind : String} {cat : Cat} {calls : Nat} {c' : Cat} {n' : Nat}
    (h : processKind fetchT fetchB tz fuel day iid kind cat calls = .ok (c', n')) :
    c'.instrs = cat.instrs := by
  rw [processKind] at h
  split at h
  · cases h; rfl
  · split at h
    · cases h
    · cases h; rfl
    · cases h; rfl

theorem processKinds_instrs_eq {fetchT : Int → Except Unit (List Tick)}
    {fetchB : Int → Except Unit (List Bar)} {tz : Int} {fuel : Nat} {day : Int}
    {iid : Nat} :
    ∀ {kinds : List String} {cat : Cat} {calls : Nat} {c' : Cat} {n' : Nat},
      processKinds fetchT fetchB tz fuel day iid kinds cat calls = .ok (c', n') →
      c'.instrs = cat.instrs := by
  intro kinds
  induction kinds with
  | nil => intro cat calls c' n' h; cases h; rfl
  | cons k ks ih =>
    intro cat calls c' n' h
    rw [processKinds_cons] at h
    split at h
    · cases h
    next c1 m heq => exact (ih h).trans (processKind_instrs_eq heq)

theorem processInstrument_instrs {fetchT : Int → Except Unit (List Tick)}
    {fetchB : Int → Except Unit (List Bar)} {tz : Int} {fuel : Nat} {day : Int}
    {iid : Nat} {kinds : List String} {cat : Cat} {calls : Nat} {c' : Cat} {n' : Nat}
    (h : processInstrument fetchT fetchB tz fuel day iid kinds cat calls = .ok (c', n')) :
    (∀ j ∈ cat.instrs, j ∈ c'.instrs) ∧ iid ∈ c'.instrs := by
  simp only [processInstrument] at h
  by_cases hmem2 : iid ∈ cat.instrs
  · rw [if_pos hmem2] at h
    have he := processKinds_instrs_eq h
    exact ⟨fun j hj => he ▸ hj, he ▸ hmem2⟩
  · rw [if_neg hmem2] at h
    have he := processKinds_instrs_eq h
    constructor
    · intro j hj
      rw [he]
      exact List.mem_append_left _ hj
    · rw [he]
      exact List.mem_append_right _ (by simp)

theorem processInstruments_instrs {fetchT : Int → Except Unit (List Tick)}
    {fetchB : Int → Except Unit (List Bar)} {tz : Int} {fuel : Nat} {day : Int}
    {kinds : List String} :
    ∀ {ilist : List Nat} {cat : Cat} {calls : Nat} {c' : Cat} {n' : Nat},
      processInstruments fetchT fetchB tz fuel day kinds ilist cat calls = .ok (c', n') →
      (∀ j ∈ cat.instrs, j ∈ c'.instrs) ∧ (∀ i ∈ ilist, i ∈ c'.instrs) := by
  intro ilist
  induction ilist with
  | nil => intro cat calls c' n' h; cases h; exact ⟨fun j hj => hj, by simp⟩
  | cons i is ih =>
    intro cat calls c' n' h
    rw [processInstruments_cons] at h
    split at h
    · cases h
    next c1 m heq =>
      have h1 := processInstrument_instrs heq
      have h2 := ih h
      refine ⟨fun j hj => h2.1 j (h1.1 j hj), fun i' hi' => ?_⟩
      rcases List.mem_cons.mp hi' with rfl | hi''
      · exact h2.1 i' h1.2
      · exact h2.2 i' hi''

theorem processDays_instrs {fetchT : Int → Except Unit (List Tick)}
    {fetchB : Int → Except Unit (List Bar)} {tz : Int} {fuel : Nat}
    {instrs : List Nat} {kinds : List String} :
    ∀ {days : List Int} {cat : Cat} {calls : Nat} {c' : Cat} {n' : Nat},
      processDays fetchT fetchB tz fuel instrs kinds days cat calls = .ok (c', n') →
      (∀ j ∈ cat.instrs, j ∈ c'.instrs) ∧ (days ≠ [] → ∀ i ∈ instrs, i ∈ c'.instrs) := by
  intro days
  induction days with
  | nil => intro cat calls c' n' h; cases h; exact ⟨fun j hj => hj, fun hne => absurd rfl hne⟩
  | cons d ds ih =>
    intro cat calls c' n' h
    rw [processDays_cons] at h
    split at h
    · cases h
    next c1 m heq =>
      have h1 := processInstruments_instrs heq
      have h2 := ih h
      exact ⟨fun j hj => h2.1 j (h1.1 j hj),
        fun _ i hi => h2.1 i (h1.2 i hi)⟩

/-- C1: a window whose partition the catalog already holds is skipped with
no provider request and no catalog change; a run over a catalog holding
every partition of the range (and the instrument registrations a completed
first run leaves behind — the third conjunct) performs zero provider calls
and returns the catalog unchanged. -/
theorem c1_idempotent_rerun :
    (∀ (fetchT : Int → Except Unit (List Tick)) (fetchB : Int → Except Unit (List Bar))
        (tz : Int) (fuel : Nat) (day : Int) (iid : Nat) (kind : String)
        (cat : Cat) (calls : Nat),
        (day, iid, kind) ∈ cat.parts →
        processKind fetchT fetchB tz fuel day iid kind cat calls = .ok (cat, calls)) ∧
    (∀ (fetchT : Int → Except Unit (List Tick)) (fetchB : Int → Except Unit (List Bar))
        (instrs : List Nat) (s e tz : Int) (kinds : List String) (fuel : Nat) (cat : Cat),
        (∀ d ∈ bdateRange s e, ∀ i ∈ instrs, ∀ k ∈ kinds, (d, i, k) ∈ cat.parts) →
        (∀ i ∈ instrs, i ∈ cat.instrs) →
        back_fill_catalog fetchT fetchB instrs s e tz kinds fuel cat = .ok (cat, 0)) ∧
    (∀ (fetchT : Int → Except Unit (List Tick)) (fetchB : Int → Except Unit (List Bar))
        (instrs : List Nat) (s e tz : Int) (kinds : List String) (fuel : Nat)
        (cat cat' : Cat) (n : Nat),
        back_fill_catalog fetchT fetchB instrs s e tz kinds fuel cat = .ok (cat', n) →
        bdateRange s e ≠ [] → ∀ i ∈ instrs, i ∈ cat'.instrs) := by
  refine ⟨?_, ?_, ?_⟩
  · intro fetchT fetchB tz fuel day iid kind cat calls hmem
    rw [processKind, if_pos hmem]
  · intro fetchT fetchB instrs s e tz kinds fuel cat hall hreg
    exact processDays_all_exist fetchT fetchB tz fuel instrs kinds (bdateRange s e)
      cat 0 hall hreg
  · intro fetchT fetchB instrs s e tz kinds fuel cat cat' n h hne
    exact (processDays_instrs h).2 hne

/-- C1 (witness): a catalog already holding the single window's partition
and the instrument registration is returned unchanged with zero provider
calls. -/
theorem c1_idempotent_witness :
    processKind (fun _ => .error ()) (fun _ => .ok []) 0 5 4 0 "TRADES"
      ⟨[(4, 0, "TRADES")], [0]⟩ 0 = .ok (⟨[(4, 0, "TRADES")], [0]⟩, 0) ∧
    back_fill_catalog (fun _ => .error ()) (fun _ => .error ()) [0] 4 4 0
      ["TRADES"] 5 ⟨[(4, 0, "TRADES")], [0]⟩ = .ok (⟨[(4, 0, "TRADES")], [0]⟩, 0) ∧
    0 ∈ (⟨[(4, 0, "TRADES")], [0]⟩ : Cat).instrs :=
  ⟨c1_idempotent_rerun.1 (fun _ => .error ()) (fun _ => .ok []) 0 5 4 0 "TRADES"
      ⟨[(4, 0, "TRADES")], [0]⟩ 0 (by decide),
   c1_idempotent_rerun.2.1 (fun _ => .error ()) (fun _ => .error ()) [0] 4 4 0
      ["TRADES"] 5 ⟨[(4, 0, "TRADES")], [0]⟩ (by decide) (by decide),
   c1_idempotent_rerun.2.2 (fun _ => .error ()) (fun _ => .error ()) [0] 4 4 0
      ["TRADES"] 5 ⟨[(4, 0, "TRADES")], [0]⟩ ⟨[(4, 0, "TRADES")], [0]⟩ 0
      (by decide) (by decide) 0 (by decide)⟩

end Backfill

namespace Backfill

/-! ## C4: provider failure handling -/

/-- C4 (counterexample): with a failing provider, two pending windows
(instruments 0 and 1, day 4, kind TRADES), and an empty catalog, the run
aborts as a whole at the first window after one provider call — it does not
log-and-continue to instrument 1 — leaving only the instrument registration
written. -/
theorem c4_abort_counterexample :
    back_fill_catalog (fun _ => .error ()) (fun _ => .ok []) [0, 1] 4 4 0
      ["TRADES"] 5 ⟨[], []⟩ = .error (.provider, ⟨[], [0]⟩, 1) := by decide

/-- C4 (amended): a provider failure during a window propagates out of the
orchestrator: the failing window writes no partition (the catalog is
unchanged at the error), and the error aborts the kinds loop — and hence
the whole run — instead of skipping to the next window. -/
theorem c4_abort_amended :
    (∀ (fetchT : Int → Except Unit (List Tick)) (fetchB : Int → Except Unit (List Bar))
        (tz : Int) (fuel : Nat) (day : Int) (iid : Nat) (kind : String)
        (cat : Cat) (calls : Nat),
        (kind = "TRADES" ∨ kind = "BID_ASK") →
        (day, iid, kind) ∉ cat.parts →
        fetchT (localDayStart day tz) = .error () →
        processKind fetchT fetchB tz (fuel + 1) day iid kind cat calls =
          .error (.provider, cat, calls + 1)) ∧
    (∀ (fetchT : Int → Except Unit (List Tick)) (fetchB : Int → Except Unit (List Bar))
        (tz : Int) (fuel : Nat) (day : Int) (iid : Nat) (k : String) (ks : List String)
        (cat : Cat) (calls : Nat) (err : RunErr × Cat × Nat),
        processKind fetchT fetchB tz fuel day iid k cat calls = .error err →
        processKinds fetchT fetchB tz fuel day iid (k :: ks) cat calls = .error err) := by
  constructor
  · intro fetchT fetchB tz fuel day iid kind cat calls hkind hmem hfetch
    have hloop : request_tick_data fetchT day tz (fuel + 1) calls = .provErr (calls + 1) := by
      rw [request_tick_data, tickLoop_succ]
      rw [show determineNextTimestamp (([] : List Tick).map (·.time)) day tz =
        localDayStart day tz from rfl]
      rw [hfetch]
    have hreq : request_data fetchT fetchB day tz kind (fuel + 1) calls =
        .error (.provider, calls + 1) := by
      rw [request_data, if_pos hkind, hloop]
    rw [processKind, if_neg hmem, hreq]
  · intro fetchT fetchB tz fuel day iid k ks cat calls err h
    rw [processKinds_cons, h]

/-- C4 (witness): the amended behaviour at a concrete failing window. -/
theorem c4_abort_witness :
    processKind (fun _ => .error ()) (fun _ => .ok []) 0 5 4 0 "TRADES" ⟨[], []⟩ 0 =
      .error (.provider, ⟨[], []⟩, 1) ∧
    processKinds (fun _ => .error ()) (fun _ => .ok []) 0 5 4 0 ["TRADES", "BID_ASK"]
      ⟨[], []⟩ 0 = .error (.provider, ⟨[], []⟩, 1) :=
  ⟨c4_abort_amended.1 (fun _ => .error ()) (fun _ => .ok []) 0 4 4 0 "TRADES"
      ⟨[], []⟩ 0 (Or.inl rfl) (by decide) rfl,
   c4_abort_amended.2 (fun _ => .error ()) (fun _ => .ok []) 0 5 4 0 "TRADES"
      ["BID_ASK"] ⟨[], []⟩ 0 (.provider, ⟨[], []⟩, 1) (by decide)⟩

/-! ## C5: unrecognized kind tokens -/

/-- C5 (counterexample): with kinds `["TRADES", "JUNK"]`, one instrument,
one day, and an empty catalog, the unrecognized token is only rejected when
its window is processed: the run aborts with the unknown-kind error *after*
one provider call has been issued (for the TRADES window) and after the
instrument registration has been written to the catalog — not at setup
before any I/O. -/
theorem c5_unknown_kind_counterexample :
    back_fill_catalog (fun _ => .ok []) (fun _ => .ok []) [0] 4 4 0
      ["TRADES", "JUNK"] 5 ⟨[], []⟩ = .error (.unknownKind, ⟨[], [0]⟩, 1) ∧
    (1 : Nat) ≠ 0 ∧ (⟨[], [0]⟩ : Cat) ≠ ⟨[], []⟩ := by decide

/-- C5 (amended): an unrecognized kind token (neither TRADES, nor BID_ASK,
nor first hyphen field BARS) raises the unknown-kind RuntimeError when its
window is first processed with no existing partition — issuing no provider
call and writing no partition for that window — and the error aborts the
kinds loop (and hence the run) at that point rather than being validated at
setup. -/
theorem c5_unknown_kind_amended :
    (∀ (fetchT : Int → Except Unit (List Tick)) (fetchB : Int → Except Unit (List Bar))
        (tz : Int) (fuel : Nat) (day : Int) (iid : Nat) (kind : String)
        (cat : Cat) (calls : Nat),
        kind ≠ "TRADES" → kind ≠ "BID_ASK" →
        (pySplit '-' kind).headD "" ≠ "BARS" →
        (day, iid, kind) ∉ cat.parts →
        processKind fetchT fetchB tz fuel day iid kind cat calls =
          .error (.unknownKind, cat, calls)) ∧
    (∀ (fetchT : Int → Except Unit (List Tick)) (fetchB : Int → Except Unit (List Bar))
        (tz : Int) (fuel : Nat) (day : Int) (iid : Nat) (k : String) (ks : List String)
        (cat : Cat) (calls : Nat) (err : RunErr × Cat × Nat),
        processKind fetchT fetchB tz fuel day iid k cat calls = .error err →
        processKinds fetchT fetchB tz fuel day iid (k :: ks) cat calls = .error err) := by
  constructor
  · intro fetchT fetchB tz fuel day iid kind cat calls h1 h2 h3 hmem
    have hreq : request_data fetchT fetchB day tz kind fuel calls =
        .error (.unknownKind, calls) := by
      rw [request_data, if_neg (not_or.mpr ⟨h1, h2⟩), if_neg h3]
    rw [processKind, if_neg hmem, hreq]
  · intro fetchT fetchB tz fuel day iid k ks cat calls err h
    rw [processKinds_cons, h]

/-- C5 (witness): the amended behaviour at a concrete unrecognized token. -/
theorem c5_unknown_kind_witness :
    processKind (fun _ => .ok []) (fun _ => .ok []) 0 5 4 0 "JUNK" ⟨[], []⟩ 0 =
      .error (.unknownKind, ⟨[], []⟩, 0) ∧
    processKinds (fun _ => .ok []) (fun _ => .ok []) 0 5 4 0 ["JUNK", "TRADES"]
      ⟨[], []⟩ 0 = .error (.unknownKind, ⟨[], []⟩, 0) :=
  ⟨c5_unknown_kind_amended.1 (fun _ => .ok []) (fun _ => .ok []) 0 5 4 0 "JUNK"
      ⟨[], []⟩ 0 (by decide) (by decide) (by decide) (by decide),
   c5_unknown_kind_amended.2 (fun _ => .ok []) (fun _ => .ok []) 0 5 4 0 "JUNK"
      ["TRADES"] ⟨[], []⟩ 0 (.unknownKind, ⟨[], []⟩, 0) (by decide)⟩

end Backfill
